import Mathlib

/-!
Shallow embedding of the continuous-learning ML pipeline
(data manager, model trainer, model validator, model deployer,
data loader) together with theorems about its behaviour.

Numeric metric values (accuracies, AUCs, predicted probabilities,
thresholds) are modelled as rationals; the decimal constants of the
source (0.70, 0.65, 0.05, 0.15) appear as the corresponding exact
rationals.
-/

namespace MLPipeline

/-- Metric bundle of a persisted model version, as read out of the
metadata record: the two fields the validator consults. -/
structure Metrics where
  accuracy : ℚ
  auc : ℚ
deriving DecidableEq, Repr

/-! ## Model validator (src/ml_pipeline/model_validator.py) -/

namespace ModelValidator

/-- Threshold `self.min_accuracy = 0.70`. -/
def min_accuracy : ℚ := mkRat 70 100

/-- Threshold `self.min_auc = 0.65`. -/
def min_auc : ℚ := mkRat 65 100

/-- Threshold `self.max_accuracy_drop = 0.05`. -/
def max_accuracy_drop : ℚ := mkRat 5 100

/-- Threshold `self.max_drift_threshold = 0.15`. -/
def max_drift_threshold : ℚ := mkRat 15 100

/-- One entry of the report's `reason` list.  Each constructor stands
for one of the human-readable strings `validate_model` appends, with
the numeric values interpolated into the string kept as payload. -/
inductive Reason where
  | accuracyBelowMin (acc : ℚ)
  | aucBelowMin (auc : ℚ)
  | accuracyDropped (drop : ℚ)
  | driftExceeds (score : ℚ)
  | noCurrentModel
  | allChecksPassed
deriving DecidableEq, Repr

/-- The `report['checks']` dictionary: exactly the five boolean entries
`validate_model` records (in both the with-active-model and the
no-active-model branch). -/
structure Checks where
  min_accuracy : Bool
  min_auc : Bool
  accuracy_improvement : Bool
  auc_improvement : Bool
  drift_acceptable : Bool
deriving DecidableEq, Repr

/-- The final decision `all(report['checks'].values())`. -/
def Checks.allPassed (c : Checks) : Bool :=
  c.min_accuracy && c.min_auc && c.accuracy_improvement &&
    c.auc_improvement && c.drift_acceptable

/-- The validation report built by `validate_model`: the checks
dictionary, the `reason` list (in append order), the recommendation
(`true` = DEPLOY, `false` = REJECT) and the recorded drift score. -/
structure Report where
  checks : Checks
  reasons : List Reason
  recommendation : Bool
  drift_score : Option ℚ
deriving DecidableEq, Repr

/-- Mean absolute difference `np.mean(np.abs(new_pred - current_pred))`
between two equal-length prediction vectors. -/
def meanAbsDiff (newPred currentPred : List ℚ) : ℚ :=
  (((newPred.zip currentPred).map fun p => |p.1 - p.2|).sum) /
    ((newPred.zip currentPred).length : ℚ)

/-- Embedding of `ModelValidator.check_drift`.  The argument is
`some (newPred, currentPred)` when both models' probability
predictions on the held-out rows succeed, and `none` when any
exception is raised while computing them; in the latter case the
except-branch of the source returns the score `1.0`. -/
def check_drift : Option (List ℚ × List ℚ) → ℚ
  | none => 1
  | some (newPred, currentPred) => meanAbsDiff newPred currentPred

/-- The embedding of `ModelValidator.validate_model` on the path where
the candidate's metadata was found.  `newM` is the candidate's metric
bundle, `current` the active model's metric bundle (`none` when no
active model exists), and `driftIn` the input to `check_drift`
(only consulted when an active model exists).  Returns the pair
`(should_deploy, report)`. -/
def validate_model (newM : Metrics) (current : Option Metrics)
    (driftIn : Option (List ℚ × List ℚ)) : Bool × Report :=
  let c_min_accuracy : Bool := decide (newM.accuracy ≥ min_accuracy)
  let c_min_auc : Bool := decide (newM.auc ≥ min_auc)
  let reasons1 : List Reason :=
    (if c_min_accuracy then [] else [Reason.accuracyBelowMin newM.accuracy]) ++
    (if c_min_auc then [] else [Reason.aucBelowMin newM.auc])
  match current with
  | some cur =>
      let accuracy_diff := newM.accuracy - cur.accuracy
      let auc_diff := newM.auc - cur.auc
      let c_accuracy_improvement : Bool := decide (accuracy_diff ≥ -max_accuracy_drop)
      let c_auc_improvement : Bool := decide (auc_diff ≥ 0)
      let reasons2 := reasons1 ++
        (if c_accuracy_improvement then [] else [Reason.accuracyDropped |accuracy_diff|])
      let drift_score := check_drift driftIn
      let c_drift_acceptable : Bool := decide (drift_score < max_drift_threshold)
      let reasons3 := reasons2 ++
        (if c_drift_acceptable then [] else [Reason.driftExceeds drift_score])
      let checks : Checks :=
        ⟨c_min_accuracy, c_min_auc, c_accuracy_improvement, c_auc_improvement,
          c_drift_acceptable⟩
      let ok := checks.allPassed
      let reasons4 := if ok then reasons3 ++ [Reason.allChecksPassed] else reasons3
      (ok, ⟨checks, reasons4, ok, some drift_score⟩)
  | none =>
      let checks : Checks := ⟨c_min_accuracy, c_min_auc, true, true, true⟩
      let reasonsN := reasons1 ++ [Reason.noCurrentModel]
      let ok := checks.allPassed
      let reasons4 := if ok then reasonsN ++ [Reason.allChecksPassed] else reasonsN
      (ok, ⟨checks, reasons4, ok, none⟩)

end ModelValidator

/-! ## Data manager (src/ml_pipeline/data_manager.py) -/

namespace DataManager

/-- One row of a batch or of the master dataset.  `customer_id`,
`credit_limit` and `utilisation_pct` are the three critical columns of
`_clean_data` (`none` models a missing/NaN cell); `payload` stands for
the remaining feature and label cells of the row. -/
structure Row where
  customer_id : Option Nat
  credit_limit : Option ℚ
  utilisation_pct : Option ℚ
  payload : ℚ
deriving DecidableEq, Repr

/-- A row that survives `dropna(subset=critical_columns)`. -/
def isComplete (r : Row) : Bool :=
  r.customer_id.isSome && r.credit_limit.isSome && r.utilisation_pct.isSome

/-- The sort key of `sort_values('customer_id')` (rows with a missing
identifier have already been dropped when it is applied). -/
def rowKey (r : Row) : Nat := r.customer_id.getD 0

/-- Embedding of `drop_duplicates(subset=['customer_id'], keep='last')`:
a row is kept exactly when no later row carries the same identifier,
and kept rows stay in their original relative order. -/
def keepLast : List Row → List Row
  | [] => []
  | r :: rest =>
      if rest.any fun s => s.customer_id = r.customer_id then keepLast rest
      else r :: keepLast rest

/-- Comparison of two rows by identifier. -/
def rowLe (a b : Row) : Bool := rowKey a ≤ rowKey b

/-- Embedding of `sort_values('customer_id')` on rows with pairwise
distinct identifiers. -/
def sortRows (l : List Row) : List Row :=
  l.mergeSort rowLe

/-- Embedding of `DataManager._clean_data`: deduplicate by identifier
keeping the last occurrence, drop rows missing a critical field, sort
by identifier. -/
def clean_data (df : List Row) : List Row :=
  sortRows ((keepLast df).filter isComplete)

/-- The last row of `l` carrying identifier `id`, if any. -/
def lastOcc (l : List Row) (id : Option Nat) : Option Row :=
  (l.filter fun r => r.customer_id = id).getLast?

/-- The file-backed state of the data manager: the pending batches of
`data/new` in arrival order, the master dataset (if the file exists),
the archived batches, and the fallback sample dataset (if that file
exists). -/
structure DMState where
  pending : List (List Row)
  master : Option (List Row)
  archive : List (List Row)
  sample : Option (List Row)
deriving DecidableEq, Repr

/-- Embedding of `DataManager.get_training_data`: return the master
dataset; failing that, initialise it from the sample data; failing
that, return an empty frame. -/
def get_training_data (s : DMState) : DMState × List Row :=
  match s.master with
  | some m => (s, m)
  | none =>
      match s.sample with
      | some sm => ({ s with master := some sm }, sm)
      | none => (s, [])

/-- Embedding of `DataManager.merge_and_clean_data`: with no pending
batch, defer to `get_training_data`; otherwise concatenate the master
dataset (empty if absent) with all pending batches in arrival order,
clean, persist the result as the new master dataset and archive the
consumed batches. -/
def merge_and_clean_data (s : DMState) : DMState × List Row :=
  match s.pending with
  | [] => get_training_data s
  | _ :: _ =>
      let master_df := s.master.getD []
      let combined := master_df ++ s.pending.flatten
      let cleaned := clean_data combined
      ({ s with
          master := some cleaned
          pending := []
          archive := s.archive ++ s.pending },
        cleaned)

end DataManager

/-! ## Model trainer (src/ml_pipeline/model_trainer.py) -/

namespace ModelTrainer

/-- Strict lexicographic comparison of parsed `(major, minor)` version
pairs, the order under which Python's `max(versions)` picks the latest
persisted version. -/
def lexLt (a b : Nat × Nat) : Bool :=
  a.1 < b.1 || (a.1 = b.1 && a.2 < b.2)

/-- The maximum of the parsed version pairs, `max(versions)`. -/
def latest_version : List (Nat × Nat) → Option (Nat × Nat)
  | [] => none
  | v :: rest =>
      match latest_version rest with
      | none => some v
      | some w => some (if lexLt v w then w else v)

/-- Embedding of `ModelTrainer._get_next_version` on the parsed
version pairs of the files in the versions directory: `1.0` when none
parse, otherwise the lexicographic maximum with its minor component
incremented by one. -/
def get_next_version (versions : List (Nat × Nat)) : Nat × Nat :=
  match latest_version versions with
  | none => (1, 0)
  | some (major, minor) => (major, minor + 1)

/-- The version formula as the spec words it, for comparison with
`get_next_version`: the largest persisted major paired with the
successor of the largest minor among that major's versions, or `1.0`
when nothing is persisted. -/
def specNextVersion (versions : List (Nat × Nat)) : Nat × Nat :=
  if versions = [] then (1, 0)
  else
    ((versions.map Prod.fst).foldr Nat.max 0,
      ((versions.filter fun v =>
          v.1 = (versions.map Prod.fst).foldr Nat.max 0).map Prod.snd).foldr Nat.max 0
        + 1)

/-- The versions returned by `n` successive successful training calls
starting from the persisted set `persisted`: each call assigns the
next version, which `save_model_version` persists before the next
call runs. -/
def train_calls (persisted : List (Nat × Nat)) : Nat → List (Nat × Nat)
  | 0 => []
  | n + 1 =>
      get_next_version persisted ::
        train_calls (persisted ++ [get_next_version persisted]) n

end ModelTrainer

/-! ## Model deployer (src/ml_pipeline/model_deployer.py) -/

namespace ModelDeployer

/-- The tag of a deployment-ledger entry. -/
inductive Action where
  | deployed
  | rollback
deriving DecidableEq, Repr

/-- One entry of the append-only deployment ledger
`logs/deployments.json`. -/
structure LedgerEntry where
  version : String
  action : Action
  timestamp : Nat
  metrics : Option Metrics
deriving DecidableEq, Repr

/-- The file-backed state the deployer works on: the persisted
versions (artifact and metadata, keyed by version string), the version
in the active slot, the timestamped backups of previously active
versions, the deployment ledger, and a clock supplying timestamps. -/
structure DeployState where
  versions : List (String × Metrics)
  active : Option String
  backups : List String
  ledger : List LedgerEntry
  clock : Nat
deriving DecidableEq, Repr

/-- Embedding of `ModelDeployer.deploy_model`: fail if the version has
no persisted artifact or metadata; otherwise back up the currently
active version if any, promote the target version to the active slot,
and append a `deployed` ledger entry carrying the target version's
metric snapshot. -/
def deploy_model (s : DeployState) (version : String) : DeployState × Bool :=
  match s.versions.lookup version with
  | none => (s, false)
  | some m =>
      let s1 :=
        match s.active with
        | some av => { s with backups := s.backups ++ [av] }
        | none => s
      ({ s1 with
          active := some version
          ledger := s1.ledger ++ [⟨version, Action.deployed, s1.clock, some m⟩]
          clock := s1.clock + 1 },
        true)

/-- Embedding of `ModelDeployer._get_previous_version`: the version
field of the second-to-last ledger entry, or nothing when fewer than
two entries exist. -/
def get_previous_version (s : DeployState) : Option String :=
  if s.ledger.length ≥ 2 then
    (s.ledger.get? (s.ledger.length - 2)).map LedgerEntry.version
  else none

/-- Embedding of `ModelDeployer.rollback_model`: resolve the target
version (the previous deployed version when none is given), fail when
there is none, otherwise deploy it and, on success, append an
additional ledger entry tagged `rollback` with no metric snapshot. -/
def rollback_model (s : DeployState) (target : Option String) : DeployState × Bool :=
  let tv :=
    match target with
    | some v => some v
    | none => get_previous_version s
  match tv with
  | none => (s, false)
  | some v =>
      let r := deploy_model s v
      if r.2 then
        ({ r.1 with
            ledger := r.1.ledger ++ [⟨v, Action.rollback, r.1.clock, none⟩]
            clock := r.1.clock + 1 },
          true)
      else (r.1, false)

end ModelDeployer

/-! ## Data loader (src/utils/data_loader.py) -/

namespace DataLoader

/-- Python's `str.strip()` on a list of characters: drop leading and
trailing whitespace. -/
def stripChars (l : List Char) : List Char :=
  ((l.dropWhile Char.isWhitespace).reverse.dropWhile Char.isWhitespace).reverse

/-- The column-name normalization of `load_data`:
`c.strip().lower().replace(' ', '_').replace('%', 'pct')`. -/
def normalize_col (c : List Char) : List Char :=
  (((stripChars c).map Char.toLower).map fun ch =>
      if ch = ' ' then '_' else ch).flatMap fun ch =>
    if ch = '%' then ['p', 'c', 't'] else [ch]

/-- The columns `load_data` checks for explicitly. -/
def required_columns : List (List Char) :=
  ["customer_id".toList, "utilisation_pct".toList, "avg_payment_ratio".toList]

/-- The five columns the spec lists as required: the three checked
explicitly, plus the two whose absence makes the `to_numeric`
conversions raise a `KeyError` that the except-branch reports as a
load failure. -/
def required5 : List (List Char) :=
  ["customer_id".toList, "utilisation_pct".toList, "avg_payment_ratio".toList,
    "cash_withdrawal_pct".toList, "recent_spend_change_pct".toList]

/-- Embedding of the column validation of `load_data` on the list of
column names of the input file: normalize all names, report failure
(`none`) when an explicitly required column is missing, then fail
when either of the two remaining converted columns is absent (the
`KeyError` path), and otherwise succeed with the normalized columns. -/
def load_data_columns (cols : List (List Char)) : Option (List (List Char)) :=
  let ncols := cols.map normalize_col
  let missing := required_columns.filter fun c => ! ncols.contains c
  if missing ≠ [] then none
  else if ! ncols.contains "cash_withdrawal_pct".toList then none
  else if ! ncols.contains "recent_spend_change_pct".toList then none
  else some ncols

end DataLoader


end MLPipeline

namespace MLPipeline

namespace ModelValidator

/-- Membership in an if-then-else of lists, split on the condition. -/
theorem mem_ite_iff {α : Type} (p : Prop) [Decidable p] (a : α) (l1 l2 : List α) :
    (a ∈ if p then l1 else l2) ↔ ((p ∧ a ∈ l1) ∨ (¬ p ∧ a ∈ l2)) := by
  by_cases h : p <;> simp [h]

/-- C1 (amended): the final decision is DEPLOY exactly when all the
recorded checks pass — equivalently, when the threshold, comparative
and drift conditions all hold on the inputs — and the reason list
contains a human-readable reason for a failing minimum-accuracy,
minimum-AUC, accuracy-regression or drift check; the
AUC-non-regression check contributes no reason entry when it fails. -/
theorem validate_decision_iff_and_reasons (m cur : Metrics)
    (driftIn : Option (List ℚ × List ℚ)) :
    ((validate_model m (some cur) driftIn).1 = true ↔
      (m.accuracy ≥ min_accuracy ∧ m.auc ≥ min_auc ∧
       m.accuracy - cur.accuracy ≥ -max_accuracy_drop ∧
       m.auc - cur.auc ≥ 0 ∧
       check_drift driftIn < max_drift_threshold)) ∧
    ((validate_model m none driftIn).1 = true ↔
      (m.accuracy ≥ min_accuracy ∧ m.auc ≥ min_auc)) ∧
    (Reason.accuracyBelowMin m.accuracy ∈
        (validate_model m (some cur) driftIn).2.reasons ↔
      ¬ m.accuracy ≥ min_accuracy) ∧
    (Reason.aucBelowMin m.auc ∈ (validate_model m (some cur) driftIn).2.reasons ↔
      ¬ m.auc ≥ min_auc) ∧
    (Reason.accuracyDropped |m.accuracy - cur.accuracy| ∈
        (validate_model m (some cur) driftIn).2.reasons ↔
      ¬ m.accuracy - cur.accuracy ≥ -max_accuracy_drop) ∧
    (Reason.driftExceeds (check_drift driftIn) ∈
        (validate_model m (some cur) driftIn).2.reasons ↔
      ¬ check_drift driftIn < max_drift_threshold) := by
  by_cases h1 : m.accuracy ≥ min_accuracy <;>
  by_cases h2 : m.auc ≥ min_auc <;>
  by_cases h3 : m.accuracy - cur.accuracy ≥ -max_accuracy_drop <;>
  by_cases h4 : m.auc - cur.auc ≥ 0 <;>
  by_cases h5 : check_drift driftIn < max_drift_threshold <;>
  simp [validate_model, Checks.allPassed, h1, h2, h3, h4, h5]

/-- Evaluation of the drift of the concrete prediction vectors used to
witness the drift gate: they differ by 0.2 on every row. -/
theorem meanAbsDiff_concrete :
    meanAbsDiff [mkRat 9 10, mkRat 9 10] [mkRat 7 10, mkRat 7 10] = mkRat 20 100 := by
  norm_num [meanAbsDiff, Rat.mkRat_eq_div]

/-- C1 (counterexample): a concrete run in which only the
AUC-non-regression check fails — candidate accuracy 0.80 and AUC 0.70
against an active model with accuracy 0.80 and AUC 0.75, with
identical predictions — is rejected, yet its reason list is empty, so
no reason names the failing check. -/
theorem validate_missing_auc_reason_cex :
    (validate_model ⟨mkRat 80 100, mkRat 70 100⟩ (some ⟨mkRat 80 100, mkRat 75 100⟩)
        (some ([mkRat 1 2], [mkRat 1 2]))).1 = false ∧
    (validate_model ⟨mkRat 80 100, mkRat 70 100⟩ (some ⟨mkRat 80 100, mkRat 75 100⟩)
        (some ([mkRat 1 2], [mkRat 1 2]))).2.checks.auc_improvement = false ∧
    (validate_model ⟨mkRat 80 100, mkRat 70 100⟩ (some ⟨mkRat 80 100, mkRat 75 100⟩)
        (some ([mkRat 1 2], [mkRat 1 2]))).2.reasons = [] := by
  refine ⟨?_, ?_, ?_⟩ <;>
  · simp [validate_model, check_drift, meanAbsDiff, Checks.allPassed, min_accuracy,
      min_auc, max_accuracy_drop, max_drift_threshold]
    norm_num [Rat.mkRat_eq_div]

/-- C2: the two absolute-threshold checks are recorded for every run,
independently of each other, passing exactly when candidate accuracy
is at least 0.70 respectively candidate AUC is at least 0.65, a
failure of either contributing its own reason; and a candidate with
accuracy 0.60 and no active model is rejected with a reason citing
the accuracy threshold, whatever its AUC. -/
theorem threshold_checks_characterization (m : Metrics) (current : Option Metrics)
    (driftIn : Option (List ℚ × List ℚ)) :
    ((validate_model m current driftIn).2.checks.min_accuracy = true ↔
      m.accuracy ≥ min_accuracy) ∧
    ((validate_model m current driftIn).2.checks.min_auc = true ↔
      m.auc ≥ min_auc) ∧
    (Reason.accuracyBelowMin m.accuracy ∈ (validate_model m current driftIn).2.reasons ↔
      ¬ m.accuracy ≥ min_accuracy) ∧
    (Reason.aucBelowMin m.auc ∈ (validate_model m current driftIn).2.reasons ↔
      ¬ m.auc ≥ min_auc) ∧
    (∀ a : ℚ,
      (validate_model ⟨mkRat 60 100, a⟩ none driftIn).1 = false ∧
      Reason.accuracyBelowMin (mkRat 60 100) ∈
        (validate_model ⟨mkRat 60 100, a⟩ none driftIn).2.reasons) := by
  have hacc : ¬ ((mkRat 60 100 : ℚ) ≥ min_accuracy) := by
    norm_num [min_accuracy, Rat.mkRat_eq_div]
  rcases current with _ | cur
  · refine ⟨?_, ?_, ?_, ?_, ?_⟩
    · by_cases h1 : m.accuracy ≥ min_accuracy <;>
      simp [validate_model, Checks.allPassed, h1]
    · by_cases h2 : m.auc ≥ min_auc <;>
      simp [validate_model, Checks.allPassed, h2]
    · by_cases h1 : m.accuracy ≥ min_accuracy <;>
      by_cases h2 : m.auc ≥ min_auc <;>
      simp [validate_model, Checks.allPassed, h1, h2]
    · by_cases h1 : m.accuracy ≥ min_accuracy <;>
      by_cases h2 : m.auc ≥ min_auc <;>
      simp [validate_model, Checks.allPassed, h1, h2]
    · intro a
      by_cases h2 : a ≥ min_auc <;>
      simp [validate_model, Checks.allPassed, hacc, h2]
  · refine ⟨?_, ?_, ?_, ?_, ?_⟩
    · by_cases h1 : m.accuracy ≥ min_accuracy <;>
      simp [validate_model, Checks.allPassed, h1]
    · by_cases h2 : m.auc ≥ min_auc <;>
      simp [validate_model, Checks.allPassed, h2]
    · by_cases h1 : m.accuracy ≥ min_accuracy <;>
      by_cases h3 : m.accuracy - cur.accuracy ≥ -max_accuracy_drop <;>
      by_cases h5 : check_drift driftIn < max_drift_threshold <;>
      by_cases h2 : m.auc ≥ min_auc <;>
      by_cases h4 : m.auc - cur.auc ≥ 0 <;>
      simp [validate_model, Checks.allPassed, h1, h2, h3, h4, h5]
    · by_cases h1 : m.accuracy ≥ min_accuracy <;>
      by_cases h3 : m.accuracy - cur.accuracy ≥ -max_accuracy_drop <;>
      by_cases h5 : check_drift driftIn < max_drift_threshold <;>
      by_cases h2 : m.auc ≥ min_auc <;>
      by_cases h4 : m.auc - cur.auc ≥ 0 <;>
      simp [validate_model, Checks.allPassed, h1, h2, h3, h4, h5]
    · intro a
      by_cases h2 : a ≥ min_auc <;>
      simp [validate_model, Checks.allPassed, hacc, h2]

/-- C3: when an active model exists, the two comparative checks pass
exactly when the accuracy delta is at least −0.05 and the AUC delta is
at least 0; and against an active model of accuracy 0.80 a candidate
of accuracy 0.74 is rejected with an accuracy-regression reason,
whatever the two AUCs and the drift input. -/
theorem comparative_gate_characterization (m cur : Metrics)
    (driftIn : Option (List ℚ × List ℚ)) :
    ((validate_model m (some cur) driftIn).2.checks.accuracy_improvement = true ↔
      m.accuracy - cur.accuracy ≥ -max_accuracy_drop) ∧
    ((validate_model m (some cur) driftIn).2.checks.auc_improvement = true ↔
      m.auc - cur.auc ≥ 0) ∧
    (∀ (candAuc activeAuc : ℚ) (dIn : Option (List ℚ × List ℚ)),
      (validate_model ⟨mkRat 74 100, candAuc⟩ (some ⟨mkRat 80 100, activeAuc⟩) dIn).1
          = false ∧
      Reason.accuracyDropped |mkRat 74 100 - mkRat 80 100| ∈
        (validate_model ⟨mkRat 74 100, candAuc⟩
          (some ⟨mkRat 80 100, activeAuc⟩) dIn).2.reasons) := by
  have hdrop : ¬ ((mkRat 74 100 : ℚ) - mkRat 80 100 ≥ -max_accuracy_drop) := by
    norm_num [max_accuracy_drop, Rat.mkRat_eq_div]
  refine ⟨?_, ?_, ?_⟩
  · by_cases h3 : m.accuracy - cur.accuracy ≥ -max_accuracy_drop <;>
    simp [validate_model, Checks.allPassed, h3]
  · by_cases h4 : m.auc - cur.auc ≥ 0 <;>
    simp [validate_model, Checks.allPassed, h4]
  · intro candAuc activeAuc dIn
    by_cases h1 : (mkRat 74 100 : ℚ) ≥ min_accuracy <;>
    by_cases h2 : candAuc ≥ min_auc <;>
    by_cases h4 : candAuc - activeAuc ≥ 0 <;>
    by_cases h5 : check_drift dIn < max_drift_threshold <;>
    simp [validate_model, Checks.allPassed, h1, h2, hdrop, h4, h5]

/-- C4: when an active model exists and both probability predictions
succeed, the recorded drift is the mean absolute difference of the two
prediction vectors, the drift check passes exactly when that drift is
below 0.15, and a drift of exactly 0.20 causes rejection with a drift
reason, whatever the two models' metrics. -/
theorem drift_gate_characterization (m cur : Metrics) (newPred currentPred : List ℚ) :
    ((validate_model m (some cur) (some (newPred, currentPred))).2.drift_score =
      some (meanAbsDiff newPred currentPred)) ∧
    ((validate_model m (some cur)
        (some (newPred, currentPred))).2.checks.drift_acceptable = true ↔
      meanAbsDiff newPred currentPred < max_drift_threshold) ∧
    (meanAbsDiff newPred currentPred = mkRat 20 100 →
      (validate_model m (some cur) (some (newPred, currentPred))).1 = false ∧
      Reason.driftExceeds (meanAbsDiff newPred currentPred) ∈
        (validate_model m (some cur) (some (newPred, currentPred))).2.reasons) := by
  refine ⟨?_, ?_, ?_⟩
  · simp [validate_model, check_drift]
  · by_cases h5 : meanAbsDiff newPred currentPred < max_drift_threshold <;>
    simp [validate_model, Checks.allPassed, check_drift, h5]
  · intro h20
    have h5 : ¬ (meanAbsDiff newPred currentPred < max_drift_threshold) := by
      rw [h20]
      norm_num [max_drift_threshold, Rat.mkRat_eq_div]
    by_cases h1 : m.accuracy ≥ min_accuracy <;>
    by_cases h2 : m.auc ≥ min_auc <;>
    by_cases h3 : m.accuracy - cur.accuracy ≥ -max_accuracy_drop <;>
    by_cases h4 : m.auc - cur.auc ≥ 0 <;>
    simp [validate_model, Checks.allPassed, check_drift, h1, h2, h3, h4, h5]

/-- C4 (witness): two concrete prediction vectors at mean absolute
difference 0.20 fail validation on drift for a concrete pair of
otherwise healthy metric bundles. -/
theorem drift_gate_characterization_witness :
    (validate_model ⟨mkRat 80 100, mkRat 70 100⟩ (some ⟨mkRat 80 100, mkRat 70 100⟩)
        (some ([mkRat 9 10, mkRat 9 10], [mkRat 7 10, mkRat 7 10]))).1 = false ∧
    Reason.driftExceeds
        (meanAbsDiff [mkRat 9 10, mkRat 9 10] [mkRat 7 10, mkRat 7 10]) ∈
      (validate_model ⟨mkRat 80 100, mkRat 70 100⟩ (some ⟨mkRat 80 100, mkRat 70 100⟩)
        (some ([mkRat 9 10, mkRat 9 10], [mkRat 7 10, mkRat 7 10]))).2.reasons :=
  (drift_gate_characterization ⟨mkRat 80 100, mkRat 70 100⟩ ⟨mkRat 80 100, mkRat 70 100⟩
    [mkRat 9 10, mkRat 9 10] [mkRat 7 10, mkRat 7 10]).2.2 meanAbsDiff_concrete

/-- C10: when computing drift raises an exception, `check_drift`
returns 1.0, which is above the 0.15 threshold, so the drift check is
recorded as failed, a drift reason is appended, and the candidate is
rejected rather than the error escaping the validation run. -/
theorem drift_error_rejects (m cur : Metrics) :
    check_drift none = 1 ∧
    max_drift_threshold < check_drift none ∧
    (validate_model m (some cur) none).2.checks.drift_acceptable = false ∧
    (validate_model m (some cur) none).1 = false ∧
    Reason.driftExceeds (check_drift none) ∈
      (validate_model m (some cur) none).2.reasons := by
  have h5 : ¬ (check_drift none < max_drift_threshold) := by
    norm_num [check_drift, max_drift_threshold, Rat.mkRat_eq_div]
  refine ⟨rfl, ?_, ?_, ?_, ?_⟩
  · norm_num [check_drift, max_drift_threshold, Rat.mkRat_eq_div]
  · by_cases h1 : m.accuracy ≥ min_accuracy <;>
    by_cases h2 : m.auc ≥ min_auc <;>
    by_cases h3 : m.accuracy - cur.accuracy ≥ -max_accuracy_drop <;>
    by_cases h4 : m.auc - cur.auc ≥ 0 <;>
    simp [validate_model, Checks.allPassed, h1, h2, h3, h4, h5]
  · by_cases h1 : m.accuracy ≥ min_accuracy <;>
    by_cases h2 : m.auc ≥ min_auc <;>
    by_cases h3 : m.accuracy - cur.accuracy ≥ -max_accuracy_drop <;>
    by_cases h4 : m.auc - cur.auc ≥ 0 <;>
    simp [validate_model, Checks.allPassed, h1, h2, h3, h4, h5]
  · by_cases h1 : m.accuracy ≥ min_accuracy <;>
    by_cases h2 : m.auc ≥ min_auc <;>
    by_cases h3 : m.accuracy - cur.accuracy ≥ -max_accuracy_drop <;>
    by_cases h4 : m.auc - cur.auc ≥ 0 <;>
    simp [validate_model, Checks.allPassed, h1, h2, h3, h4, h5]

end ModelValidator

end MLPipeline

namespace MLPipeline

namespace DataManager

/-- Rows kept by the deduplication are rows of the input. -/
theorem keepLast_subset (l : List Row) : keepLast l ⊆ l := by
  induction l with
  | nil => simp [keepLast]
  | cons r rest ih =>
      by_cases hany : rest.any fun s => s.customer_id = r.customer_id
      · simp only [keepLast, hany, if_true]
        exact fun x hx => List.mem_cons_of_mem r (ih hx)
      · simp only [keepLast, hany, if_false]
        intro x hx
        rcases List.mem_cons.mp hx with h | h
        · exact h ▸ List.mem_cons_self r rest
        · exact List.mem_cons_of_mem r (ih h)

/-- Filtering the deduplicated list by one identifier yields exactly
the last occurrence of that identifier in the input, if any. -/
theorem filter_keepLast (l : List Row) (id : Option Nat) :
    (keepLast l).filter (fun r => r.customer_id = id) =
      ((l.filter fun r => r.customer_id = id).getLast?).toList := by
  induction l with
  | nil => rfl
  | cons r rest ih =>
      rw [keepLast]
      by_cases hany : (rest.any fun s => s.customer_id = r.customer_id) = true
      · rw [if_pos hany]
        by_cases hr : r.customer_id = id
        · have hne : rest.filter (fun r => r.customer_id = id) ≠ [] := by
            obtain ⟨s, hs, hcid⟩ :=
              (by simpa using hany : ∃ s ∈ rest, s.customer_id = r.customer_id)
            exact List.ne_nil_of_mem
              (List.mem_filter.mpr ⟨hs, by simp [hcid, hr]⟩)
          rw [ih, List.filter_cons_of_pos (by simpa using hr)]
          obtain ⟨x, xs, hx⟩ := List.exists_cons_of_ne_nil hne
          rw [hx, List.getLast?_cons_cons]
        · rw [ih, List.filter_cons_of_neg (by simpa using hr)]
      · rw [if_neg hany]
        have hnone : ∀ s ∈ rest, s.customer_id ≠ r.customer_id := by
          simpa using hany
        by_cases hr : r.customer_id = id
        · have hrestnil : rest.filter (fun r => r.customer_id = id) = [] := by
            apply List.filter_eq_nil_iff.mpr
            intro s hs
            simp only [decide_eq_true_eq]
            exact fun h => hnone s hs (h.trans hr.symm)
          have hkeepnil : (keepLast rest).filter (fun r => r.customer_id = id) = [] := by
            apply List.filter_eq_nil_iff.mpr
            intro s hs
            simp only [decide_eq_true_eq]
            exact fun h => hnone s (keepLast_subset rest hs) (h.trans hr.symm)
          rw [List.filter_cons_of_pos (by simpa using hr),
            List.filter_cons_of_pos (by simpa using hr), hrestnil, hkeepnil]
          rfl
        · rw [List.filter_cons_of_neg (by simpa using hr),
            List.filter_cons_of_neg (by simpa using hr)]
          exact ih

/-- Identifiers are pairwise distinct after the deduplication. -/
theorem keepLast_map_nodup (l : List Row) :
    ((keepLast l).map Row.customer_id).Nodup := by
  induction l with
  | nil => simp [keepLast]
  | cons r rest ih =>
      rw [keepLast]
      by_cases hany : (rest.any fun s => s.customer_id = r.customer_id) = true
      · rw [if_pos hany]
        exact ih
      · rw [if_neg hany]
        have hnone : ∀ t ∈ rest, t.customer_id ≠ r.customer_id := by
          simpa using hany
        simp only [List.map_cons, List.nodup_cons]
        refine ⟨?_, ih⟩
        intro hmem
        rcases List.mem_map.mp hmem with ⟨s, hs, hcid⟩
        exact hnone s (keepLast_subset rest hs) hcid

end DataManager

end MLPipeline

namespace MLPipeline

namespace DataManager

/-- Per-identifier content of the cleaned dataset: exactly the last
occurrence of the identifier in the input, when that occurrence has
all critical fields, and nothing otherwise. -/
theorem clean_data_filter_id (l : List Row) (id : Option Nat) :
    (clean_data l).filter (fun r => r.customer_id = id) =
      (match lastOcc l id with
       | some r => if isComplete r then [r] else []
       | none => ([] : List Row)) := by
  have hperm : ((clean_data l).filter (fun r => r.customer_id = id)).Perm
      ((((l.filter fun r => r.customer_id = id).getLast?).toList).filter isComplete) := by
    have h1 : (clean_data l).Perm ((keepLast l).filter isComplete) :=
      List.mergeSort_perm _ _
    have h2 := h1.filter (fun r => decide (r.customer_id = id))
    rw [List.filter_comm, filter_keepLast] at h2
    exact h2
  rcases hlast : (l.filter fun r => r.customer_id = id).getLast? with _ | r
  · rw [hlast] at hperm
    simp only [Option.toList, List.filter_nil] at hperm
    rw [hperm.eq_nil]
    simp [lastOcc, hlast]
  · rw [hlast] at hperm
    by_cases hc : isComplete r
    · simp only [Option.toList, List.filter_cons, hc, if_true, List.filter_nil] at hperm
      rw [List.perm_singleton.mp hperm]
      simp [lastOcc, hlast, hc]
    · simp only [Option.toList, List.filter_cons, hc, if_false, List.filter_nil] at hperm
      rw [hperm.eq_nil]
      simp [lastOcc, hlast, hc]

/-- Identifiers are pairwise distinct in the cleaned dataset. -/
theorem clean_data_nodup (l : List Row) :
    ((clean_data l).map Row.customer_id).Nodup := by
  have hsub : ((keepLast l).filter isComplete).Sublist (keepLast l) :=
    List.filter_sublist _
  have h1 : (((keepLast l).filter isComplete).map Row.customer_id).Nodup :=
    List.Nodup.sublist (hsub.map _) (keepLast_map_nodup l)
  have hperm : ((clean_data l).map Row.customer_id).Perm
      (((keepLast l).filter isComplete).map Row.customer_id) :=
    (List.mergeSort_perm _ _).map _
  exact hperm.nodup_iff.mpr h1

/-- Every row of the cleaned dataset has all critical fields. -/
theorem clean_data_complete (l : List Row) :
    (clean_data l).all isComplete = true := by
  rw [List.all_eq_true]
  intro r hr
  simp only [clean_data, sortRows, List.mem_mergeSort] at hr
  exact (List.mem_filter.mp hr).2

/-- The cleaned dataset is sorted by identifier. -/
theorem clean_data_sorted (l : List Row) :
    List.Pairwise (fun a b => rowKey a ≤ rowKey b) (clean_data l) := by
  have htrans : ∀ a b c : Row, rowLe a b = true → rowLe b c = true → rowLe a c = true := by
    intro a b c hab hbc
    simp only [rowLe, decide_eq_true_eq] at hab hbc ⊢
    exact Nat.le_trans hab hbc
  have htot : ∀ a b : Row, (rowLe a b || rowLe b a) = true := by
    intro a b
    simp only [rowLe, Bool.or_eq_true, decide_eq_true_eq]
    exact Nat.le_total _ _
  have h := List.sorted_mergeSort htrans htot ((keepLast l).filter isComplete)
  refine h.imp ?_
  intro a b hab
  simpa [rowLe] using hab

/-- C6: the merge concatenates the master dataset with the pending
batches in arrival order and cleans the result, which then carries at
most one row per identifier, namely the last occurrence of the
identifier across the whole concatenation whenever that occurrence has
all critical fields (and no row for identifiers whose last occurrence
is missing one), contains only rows with all critical fields, and is
sorted by identifier. -/
theorem merge_dedup_characterization (master b : List Row) (bs arch : List (List Row))
    (sample : Option (List Row)) :
    (merge_and_clean_data ⟨b :: bs, some master, arch, sample⟩).2 =
        clean_data (master ++ (b :: bs).flatten) ∧
    ((clean_data (master ++ (b :: bs).flatten)).map Row.customer_id).Nodup ∧
    (clean_data (master ++ (b :: bs).flatten)).all isComplete = true ∧
    (∀ id : Option Nat,
      (clean_data (master ++ (b :: bs).flatten)).filter (fun r => r.customer_id = id) =
        match lastOcc (master ++ (b :: bs).flatten) id with
        | some r => if isComplete r then [r] else []
        | none => []) ∧
    List.Pairwise (fun r s => rowKey r ≤ rowKey s)
      (clean_data (master ++ (b :: bs).flatten)) :=
  ⟨rfl, clean_data_nodup _, clean_data_complete _,
    fun id => clean_data_filter_id _ id, clean_data_sorted _⟩

/-- C7: with no pending batch the merge returns the existing master
dataset and leaves the state untouched, and running the merge twice in
a row (no batch arriving in between) gives the same corpus and the
same state as running it once. -/
theorem merge_noop_and_idempotent :
    (∀ (m : List Row) (arch : List (List Row)) (sample : Option (List Row)),
      merge_and_clean_data ⟨[], some m, arch, sample⟩ =
        (⟨[], some m, arch, sample⟩, m)) ∧
    (∀ s : DMState,
      merge_and_clean_data (merge_and_clean_data s).1 = merge_and_clean_data s) := by
  constructor
  · intro m arch sample
    rfl
  · intro s
    rcases s with ⟨pending, master, archive, sample⟩
    cases pending <;> cases master <;> cases sample <;>
      simp [merge_and_clean_data, get_training_data, clean_data]

end DataManager

end MLPipeline

namespace MLPipeline

namespace ModelTrainer

/-- Unfolding of the lexicographic comparison. -/
theorem lexLt_iff (a b : Nat × Nat) :
    lexLt a b = true ↔ (a.1 < b.1 ∨ (a.1 = b.1 ∧ a.2 < b.2)) := by
  simp [lexLt]

/-- The lexicographic comparison is irreflexive. -/
theorem lexLt_irrefl (a : Nat × Nat) : lexLt a a = false := by
  simp [lexLt]

/-- The maximum of the parsed versions exists exactly on a nonempty
list. -/
theorem latest_version_eq_none (l : List (Nat × Nat)) :
    latest_version l = none ↔ l = [] := by
  cases l with
  | nil => simp [latest_version]
  | cons v rest =>
      simp only [latest_version]
      cases latest_version rest <;> simp

/-- The maximum of the parsed versions is one of them. -/
theorem latest_version_mem (l : List (Nat × Nat)) (w : Nat × Nat)
    (h : latest_version l = some w) : w ∈ l := by
  induction l generalizing w with
  | nil => simp [latest_version] at h
  | cons v rest ih =>
      simp only [latest_version] at h
      cases hrest : latest_version rest with
      | none =>
          rw [hrest] at h
          simp only [Option.some.injEq] at h
          subst h
          exact List.mem_cons_self _ _
      | some u =>
          rw [hrest] at h
          simp only [Option.some.injEq] at h
          by_cases hlt : lexLt v u = true
          · rw [if_pos hlt] at h
            subst h
            exact List.mem_cons_of_mem _ (ih u hrest)
          · rw [if_neg hlt] at h
            subst h
            exact List.mem_cons_self _ _

/-- Every parsed version is lexicographically at most the maximum. -/
theorem latest_version_ge (l : List (Nat × Nat)) (w : Nat × Nat)
    (h : latest_version l = some w) :
    ∀ v ∈ l, v.1 < w.1 ∨ (v.1 = w.1 ∧ v.2 ≤ w.2) := by
  induction l generalizing w with
  | nil => intro v hv; simp at hv
  | cons x rest ih =>
      intro v hv
      simp only [latest_version] at h
      cases hrest : latest_version rest with
      | none =>
          have hrnil := (latest_version_eq_none rest).mp hrest
          rw [hrest] at h
          simp only [Option.some.injEq] at h
          subst h
          subst hrnil
          rcases List.mem_singleton.mp hv with rfl
          right
          exact ⟨rfl, Nat.le_refl _⟩
      | some u =>
          rw [hrest] at h
          simp only [Option.some.injEq] at h
          rcases List.mem_cons.mp hv with rfl | hvrest
          · by_cases hlt : lexLt v u = true
            · rw [if_pos hlt] at h
              subst h
              have := (lexLt_iff _ _).mp hlt
              omega
            · rw [if_neg hlt] at h
              subst h
              right
              exact ⟨rfl, Nat.le_refl _⟩
          · have hv' := ih u hrest v hvrest
            by_cases hlt : lexLt x u = true
            · rw [if_pos hlt] at h
              subst h
              exact hv'
            · rw [if_neg hlt] at h
              subst h
              have hxu : ¬ (x.1 < u.1 ∨ (x.1 = u.1 ∧ x.2 < u.2)) := by
                simpa [lexLt_iff] using hlt
              omega

/-- A member of a list of naturals is at most the folded maximum. -/
theorem foldr_max_mem_le (x : Nat) (xs : List Nat) (hx : x ∈ xs) :
    x ≤ xs.foldr Nat.max 0 := by
  induction xs with
  | nil => simp at hx
  | cons y ys ih =>
      rcases List.mem_cons.mp hx with rfl | h
      · exact Nat.le_max_left _ _
      · exact Nat.le_trans (ih h) (Nat.le_max_right _ _)

/-- The folded maximum of a list of naturals is at most any upper
bound of its members. -/
theorem foldr_max_le (xs : List Nat) (b : Nat) (h : ∀ x ∈ xs, x ≤ b) :
    xs.foldr Nat.max 0 ≤ b := by
  induction xs with
  | nil => simp
  | cons y ys ih =>
      simp only [List.foldr]
      exact Nat.max_le.mpr
        ⟨h y (List.mem_cons_self _ _), ih fun x hx => h x (List.mem_cons_of_mem _ hx)⟩

/-- The code's next-version computation agrees with the spec's
formula: greatest major, then greatest minor for that major plus one,
and `1.0` when nothing is persisted. -/
theorem get_next_eq_spec (l : List (Nat × Nat)) :
    get_next_version l = specNextVersion l := by
  cases hl : latest_version l with
  | none =>
      have hnil : l = [] := (latest_version_eq_none l).mp hl
      subst hnil
      rfl
  | some w =>
      obtain ⟨w1, w2⟩ := w
      have hmem := latest_version_mem l (w1, w2) hl
      have hge := latest_version_ge l (w1, w2) hl
      have hlne : l ≠ [] := by
        rintro rfl
        simp [latest_version] at hl
      have hM : (l.map Prod.fst).foldr Nat.max 0 = w1 := by
        apply Nat.le_antisymm
        · apply foldr_max_le
          intro x hx
          rcases List.mem_map.mp hx with ⟨v, hv, rfl⟩
          have := hge v hv
          omega
        · exact foldr_max_mem_le _ _ (List.mem_map.mpr ⟨(w1, w2), hmem, rfl⟩)
      have hm : ((l.filter fun v => v.1 = w1).map Prod.snd).foldr Nat.max 0 = w2 := by
        apply Nat.le_antisymm
        · apply foldr_max_le
          intro x hx
          rcases List.mem_map.mp hx with ⟨v, hv, rfl⟩
          have hvf := List.mem_filter.mp hv
          have hv1 : v.1 = w1 := by simpa using hvf.2
          have := hge v hvf.1
          omega
        · apply foldr_max_mem_le
          exact List.mem_map.mpr ⟨(w1, w2), List.mem_filter.mpr ⟨hmem, by simp⟩, rfl⟩
      simp only [get_next_version, hl]
      rw [specNextVersion, if_neg hlne, hM, hm]

/-- Every persisted version is lexicographically below the assigned
next version. -/
theorem next_gt (l : List (Nat × Nat)) :
    ∀ v ∈ l, lexLt v (get_next_version l) = true := by
  intro v hv
  cases hl : latest_version l with
  | none =>
      have hnil : l = [] := (latest_version_eq_none l).mp hl
      subst hnil
      simp at hv
  | some w =>
      obtain ⟨w1, w2⟩ := w
      have hge := latest_version_ge l (w1, w2) hl v hv
      simp only [get_next_version, hl]
      rw [lexLt_iff]
      omega

/-- Appending an element strictly above every element of the list
makes it the new maximum. -/
theorem latest_append (l : List (Nat × Nat)) (u : Nat × Nat)
    (h : ∀ v ∈ l, lexLt v u = true) :
    latest_version (l ++ [u]) = some u := by
  induction l with
  | nil => rfl
  | cons x rest ih =>
      have hrest := ih fun v hv => h v (List.mem_cons_of_mem _ hv)
      rw [List.cons_append, latest_version, hrest]
      show some (if lexLt x u = true then u else x) = some u
      rw [if_pos (h x (List.mem_cons_self _ _))]

/-- After persisting the assigned version, the next assignment is the
same major with the minor incremented once more. -/
theorem next_step (l : List (Nat × Nat)) :
    get_next_version (l ++ [get_next_version l]) =
      ((get_next_version l).1, (get_next_version l).2 + 1) := by
  rcases hu : get_next_version l with ⟨u1, u2⟩
  have hgt : ∀ v ∈ l, lexLt v (u1, u2) = true := by
    intro v hv
    have := next_gt l v hv
    rwa [hu] at this
  simp only [get_next_version, latest_append l (u1, u2) hgt]

/-- The minors of the versions returned by successive training calls
strictly increase. -/
theorem train_calls_chain (n : Nat) :
    ∀ l, List.Chain' (fun a b : Nat × Nat => a.2 < b.2) (train_calls l n) := by
  induction n with
  | zero =>
      intro l
      simp [train_calls]
  | succ n ih =>
      intro l
      cases n with
      | zero => simp [train_calls]
      | succ m =>
          have htail := ih (l ++ [get_next_version l])
          simp only [train_calls] at htail ⊢
          refine List.chain'_cons.mpr ⟨?_, htail⟩
          rw [next_step l]
          exact Nat.lt_succ_self _

/-- No version returned by the successive training calls is in the
initially persisted set. -/
theorem train_calls_disjoint (n : Nat) :
    ∀ l, List.Disjoint (train_calls l n) l := by
  induction n with
  | zero =>
      intro l
      simp [train_calls]
  | succ n ih =>
      intro l
      simp only [train_calls]
      intro a ha hal
      rcases List.mem_cons.mp ha with rfl | ha'
      · have := next_gt l _ hal
        rw [lexLt_irrefl] at this
        exact Bool.false_ne_true this
      · exact ih (l ++ [get_next_version l]) ha' (List.mem_append_left _ hal)

/-- C5: the next assigned version is the greatest persisted major
paired with the successor of the greatest minor for that major (1.0
when nothing is persisted), and over any sequence of successful
training calls the returned versions have strictly increasing minors
and never coincide with an already-persisted version. -/
theorem version_assignment_and_monotonicity (versions : List (Nat × Nat)) (n : Nat) :
    get_next_version versions = specNextVersion versions ∧
    List.Chain' (fun a b : Nat × Nat => a.2 < b.2) (train_calls versions n) ∧
    List.Disjoint (train_calls versions n) versions :=
  ⟨get_next_eq_spec versions, train_calls_chain n versions, train_calls_disjoint n versions⟩

end ModelTrainer

end MLPipeline

namespace MLPipeline

namespace ModelDeployer

/-- C8: with no explicit target, rollback resolves the target to the
version of the second-to-last ledger entry and fails (leaving the
state untouched) when fewer than two entries exist; on a ledger of two
deployments it redeploys the first entry's version — the active slot
ends at that version — and the ledger gains a `deployed` entry and a
distinct additional entry tagged `rollback` for it. -/
theorem rollback_resolves_previous (vs : List (String × Metrics)) (m : Metrics)
    (act : Option String) (bk : List String) (e1 e2 : LedgerEntry) (c : Nat) :
    (get_previous_version ⟨vs, act, bk, [e1, e2], c⟩ = some e1.version) ∧
    (rollback_model ⟨vs, act, bk, [], c⟩ none = (⟨vs, act, bk, [], c⟩, false)) ∧
    (rollback_model ⟨vs, act, bk, [e1], c⟩ none = (⟨vs, act, bk, [e1], c⟩, false)) ∧
    ((rollback_model ⟨(e1.version, m) :: vs, act, bk, [e1, e2], c⟩ none).2 = true ∧
     (rollback_model ⟨(e1.version, m) :: vs, act, bk, [e1, e2], c⟩ none).1.active =
        some e1.version ∧
     (rollback_model ⟨(e1.version, m) :: vs, act, bk, [e1, e2], c⟩ none).1.ledger =
        [e1, e2, ⟨e1.version, Action.deployed, c, some m⟩,
          ⟨e1.version, Action.rollback, c + 1, none⟩]) := by
  refine ⟨?_, ?_, ?_, ?_, ?_, ?_⟩ <;>
    cases act <;>
    simp [rollback_model, get_previous_version, deploy_model, List.lookup]

end ModelDeployer

namespace DataLoader

set_option maxHeartbeats 1600000 in
/-- C9: the column validation of the loader succeeds exactly when all
five required columns are present after normalization — so a file
missing any of `customer_id`, `utilisation_pct`, `avg_payment_ratio`,
`cash_withdrawal_pct` or `recent_spend_change_pct` (post
normalization) is reported back as a load failure — and the
normalization lower-cases, strips, and rewrites spaces and percent
signs as in `"Utilisation %" ↦ "utilisation_pct"`. -/
theorem load_columns_characterization (cols : List (List Char)) :
    load_data_columns cols =
      (if required5.all fun r => (cols.map normalize_col).contains r
       then some (cols.map normalize_col) else none) ∧
    normalize_col "Utilisation %".toList = "utilisation_pct".toList := by
  constructor
  · simp only [load_data_columns, required_columns, required5]
    cases h1 : (cols.map normalize_col).contains ("customer_id".toList) <;>
    cases h2 : (cols.map normalize_col).contains ("utilisation_pct".toList) <;>
    cases h3 : (cols.map normalize_col).contains ("avg_payment_ratio".toList) <;>
    cases h4 : (cols.map normalize_col).contains ("cash_withdrawal_pct".toList) <;>
    cases h5 : (cols.map normalize_col).contains ("recent_spend_change_pct".toList) <;>
    simp only [List.filter_cons, List.filter_nil, List.all_cons, List.all_nil,
      h1, h2, h3, h4, h5, Bool.not_true, Bool.not_false, Bool.and_true,
      Bool.true_and, Bool.and_false, Bool.false_and, if_true, if_false] <;>
    simp
  · decide

end DataLoader

end MLPipeline
